import Mathlib

/-!
# kitti_pcl: region-of-interest filter and detection markers

A shallow embedding of `src/kitti_pcl.cpp`:

* `show_detection` (lines 42-94): the marker array built from a cluster list and the
  deletion bookkeeping on the global `num_last_objects`;
* the filter loop of `callback_pcl` (lines 103-137): the nested range tests that pick the
  inlier indices, followed by the index extraction.

`std::vector` indexing outside the bounds is undefined behaviour in C++; here such an access
ends the call with a `Fault`.  Console output (`std::cout`) is not modelled.  Container sizes
are taken to fit the `int` loop counters of the source (a cloud arrives in one message whose
byte length is a 32-bit count).

The filter is written over a record of scalar operations and an order test (`Arith`) and a
record of thresholds (`Params`).  The statements about the loop hold on every such arithmetic,
so on the binary32 arithmetic and the binary32 constants of the source.  The statements about
the geometry of the region (range at most 3, the wedge in front of the sensor) are made over
exact real arithmetic (`realArith`, `realParams`); there the thresholds are the decimal values
written in the source, not their binary32 roundings, and no operation rounds.
-/

namespace KittiPcl

/-! ## Faults and the counting loop -/

/-- An indexed access outside a container: `index` was used on a container of `size` elements. -/
inductive Fault where
  | outOfBounds (index size : Nat)
  deriving DecidableEq, Repr

/-- The loop `for (int i = lo; i < hi; ++i) body`, threading the loop state. -/
def forLoop {σ : Type} (lo hi : Nat) (body : σ → Nat → Except Fault σ) (init : σ) :
    Except Fault σ :=
  (List.range' lo (hi - lo)).foldlM body init

/-! ## Markers (`show_detection`) -/

/-- The cluster summary read by `show_detection`: centre and footprint.  The scalar type of the
fields is declared in a header that is not part of the sources; it is the parameter `α`. -/
structure Cluster (α : Type) where
  x : α
  y : α
  l_x : α
  l_y : α
  deriving DecidableEq, Repr

/-- The values of `visualization_msgs::Marker::action` used by the source. -/
inductive MarkerAction where
  | ADD
  | DELETE
  deriving DecidableEq, Repr

/-- The values of `visualization_msgs::Marker::type`; the source only uses `CUBE`. -/
inductive MarkerType where
  | ARROW
  | CUBE
  deriving DecidableEq, Repr

/-- The fields of `visualization_msgs::Marker` that `show_detection` assigns.  Fields copied
from a cluster have the scalar type of the cluster, fields set from a literal hold the literal. -/
structure Marker (α : Type) where
  header_frame_id : String
  header_stamp : Nat
  ns : String
  id : Int
  text : String
  type : MarkerType
  action : MarkerAction
  pose_position_x : α
  pose_position_y : α
  pose_position_z : ℚ
  pose_orientation_x : ℚ
  pose_orientation_y : ℚ
  pose_orientation_z : ℚ
  pose_orientation_w : ℚ
  scale_x : α
  scale_y : α
  scale_z : ℚ
  color_a : ℚ
  color_r : ℚ
  color_g : ℚ
  color_b : ℚ
  mesh_resource : String
  frame_locked : Bool
  deriving DecidableEq, Repr

/-- Lines 50-74: the marker created for slot `i` from `clusters[i]`. -/
def newMarker {α : Type} (i : Nat) (c : Cluster α) : Marker α where
  header_frame_id := "base_link"
  header_stamp := 0
  ns := "my_namespace"
  id := (i : Int)
  text := "OBJECT"
  type := MarkerType.CUBE
  action := MarkerAction.ADD
  pose_position_x := c.x
  pose_position_y := c.y
  pose_position_z := 1 / 10
  pose_orientation_x := 0
  pose_orientation_y := 0
  pose_orientation_z := 0
  pose_orientation_w := 1
  scale_x := c.l_x
  scale_y := c.l_y
  scale_z := 1 / 10
  color_a := 3 / 10
  color_r := 0
  color_g := 1
  color_b := 0
  mesh_resource := "package://pr2_description/meshes/base_v0/base.dae"
  frame_locked := true

/-- The element access `v[i]` of a `std::vector`, a fault outside the bounds. -/
def index {β : Type} (v : List β) (i : Nat) : Except Fault β :=
  match v[i]? with
  | some b => Except.ok b
  | none => Except.error (Fault.outOfBounds i v.length)

/-- Lines 48-75, one pass of the first loop: build the marker of slot `i` and `push_back` it. -/
def pushMarker {α : Type} (clusters : List (Cluster α)) (markers : List (Marker α)) (i : Nat) :
    Except Fault (List (Marker α)) := do
  let c ← index clusters i
  pure (markers ++ [newMarker i c])

/-- Lines 84-85, one pass of the second loop: `markers[i].action = DELETE` and
`markers[i].color.a = 0.0`, both through `markers[i]`. -/
def markDeleted {α : Type} (markers : List (Marker α)) (i : Nat) :
    Except Fault (List (Marker α)) := do
  let m ← index markers i
  pure (markers.set i { m with action := MarkerAction.DELETE, color_a := 0 })

/-- The conversion of the `int` `num_last_objects` to `size_t` that the comparison with
`clusters.size()` on line 81 performs. -/
def toSizeT (n : Int) : Nat := (n % 2 ^ 64).toNat

/-- The function `show_detection` (lines 42-94).  The global `num_last_objects` is passed in and
its new value returned next to the published marker array. -/
def show_detection {α : Type} (num_last_objects : Int) (clusters : List (Cluster α)) :
    Except Fault (List (Marker α) × Int) := do
  let marker_array ← forLoop 0 clusters.length (pushMarker clusters) []
  let marker_array ←
    if toSizeT num_last_objects > clusters.length then
      forLoop clusters.length num_last_objects.toNat markDeleted marker_array
    else
      pure marker_array
  pure (marker_array, (clusters.length : Int))

/-- The values of `num_last_objects` read on line 81 by the successive calls of
`show_detection` on `frames`, starting from the value `s`; a call that faults is the last. -/
def compared {α : Type} (s : Int) : List (List (Cluster α)) → List Int
  | [] => []
  | clusters :: rest =>
    s :: (match show_detection s clusters with
      | Except.ok r => compared r.2 rest
      | Except.error _ => [])

/-- The markers of the clusters `cs` when the first of them fills slot `k`. -/
def markersFrom {α : Type} (k : Nat) : List (Cluster α) → List (Marker α)
  | [] => []
  | c :: cs => newMarker k c :: markersFrom (k + 1) cs

/-- An example cluster, used to evaluate the definitions. -/
def clusterA : Cluster Int := { x := 1, y := 2, l_x := 3, l_y := 4 }

/-- A second example cluster. -/
def clusterB : Cluster Int := { x := 5, y := 6, l_x := 7, l_y := 8 }

/-! ## The region-of-interest filter (`callback_pcl`) -/

/-- A point of the cloud, `pcl::PointXYZ`, over the scalar type `F`. -/
structure PointXYZ (F : Type) where
  x : F
  y : F
  z : F
  deriving DecidableEq, Repr

/-- The scalar operations the filter applies to `float` values.  The filter is written once
over these operations, so that it can be run on any arithmetic that provides them. -/
structure Arith (F : Type) where
  atan2 : F → F → F
  abs : F → F
  sqrt : F → F
  mul : F → F → F
  add : F → F → F
  lt : F → F → Bool

/-- The parameters of lines 31-35. -/
structure Params (F : Type) where
  voxel_size : F
  opening_angle : F
  minimum_height : F
  minimum_range : F
  maximum_range : F

/-- Line 37. -/
def filter_pointcloud : Bool := true

/-- Line 38. -/
def convert_to_voxelgrid : Bool := false

/-- The state of the filter loop: `inliers->indices`, and the indices at which the loop has
read a point with `cloud->at(i)`. -/
structure FilterState where
  indices : List Nat
  reads : List Nat
  deriving DecidableEq, Repr

/-- Lines 112-129, one pass of the filter loop; `a > b` is `b < a`. -/
def filterStep {F : Type} (A : Arith F) (P : Params F) (cloud : List (PointXYZ F))
    (st : FilterState) (i : Nat) : Except Fault FilterState := do
  let point ← index cloud i
  let st : FilterState := { st with reads := st.reads ++ [i] }
  let angle := A.abs (A.atan2 point.y point.x)
  if A.lt angle P.opening_angle then
    let range := A.sqrt (A.add (A.mul point.x point.x) (A.mul point.y point.y))
    if A.lt P.minimum_range range && A.lt range P.maximum_range then
      if A.lt P.minimum_height point.z && A.lt angle P.opening_angle then
        pure { st with indices := st.indices ++ [i] }
      else
        pure st
    else
      pure st
  else
    pure st

/-- Lines 110-130: the filter loop over the whole cloud, from an empty index list. -/
def filterLoop {F : Type} (A : Arith F) (P : Params F) (cloud : List (PointXYZ F)) :
    Except Fault FilterState :=
  forLoop 0 cloud.length (filterStep A P cloud) { indices := [], reads := [] }

/-- Modelled from the spec: `pcl::ExtractIndices` is library code outside the sources.  With
`setNegative(false)` the filter retains the points of the input cloud at the listed indices, in
the order of the list. -/
def extract {F : Type} (cloud : List (PointXYZ F)) : List Nat → Except Fault (List (PointXYZ F))
  | [] => Except.ok []
  | i :: rest => do
    let point ← index cloud i
    let points ← extract cloud rest
    pure (point :: points)

/-- Lines 99-147 of `callback_pcl`: the cloud handed to the detector and republished.  The
voxel-grid filter of PCL is the parameter `voxelGrid` (leaf size, cloud). -/
def callback_pcl {F : Type} (A : Arith F) (P : Params F)
    (voxelGrid : F → List (PointXYZ F) → List (PointXYZ F)) (input : List (PointXYZ F)) :
    Except Fault (List (PointXYZ F)) := do
  let cloud := input
  let cloud ←
    if filter_pointcloud then do
      let inliers ← filterLoop A P cloud
      extract cloud inliers.indices
    else
      pure cloud
  let cloud := if convert_to_voxelgrid then voxelGrid P.voxel_size cloud else cloud
  pure cloud

/-- The retention policy in the words of the specification: the cone, range and height
predicates, as one conjunction. -/
def retained {F : Type} (A : Arith F) (P : Params F) (point : PointXYZ F) : Bool :=
  A.lt (A.abs (A.atan2 point.y point.x)) P.opening_angle
    && A.lt P.minimum_range (A.sqrt (A.add (A.mul point.x point.x) (A.mul point.y point.y)))
    && A.lt (A.sqrt (A.add (A.mul point.x point.x) (A.mul point.y point.y))) P.maximum_range
    && A.lt P.minimum_height point.z

/-- The indices of the points of `points` that satisfy `retained`, the first point having
index `k`. -/
def retainedFrom {F : Type} (A : Arith F) (P : Params F) (k : Nat) :
    List (PointXYZ F) → List Nat
  | [] => []
  | point :: rest =>
    if retained A P point then k :: retainedFrom A P (k + 1) rest
    else retainedFrom A P (k + 1) rest

/-- Exact real arithmetic, without rounding: `atan2 y x` is the argument of `x + y i`.  The
source rounds every operation to binary32; this idealisation is used for the statements about
the geometry of the region only. -/
noncomputable def realArith : Arith ℝ where
  atan2 := fun y x => Complex.arg ⟨x, y⟩
  abs := fun a => |a|
  sqrt := Real.sqrt
  mul := fun a b => a * b
  add := fun a b => a + b
  lt := fun a b => decide (a < b)

/-- The constants of lines 31-35 as the exact reals written there (`pi/4`, `-1.3`, `3`, `20`).
The source holds their binary32 roundings, which differ for `pi/4`, `-1.3` and `0.2`. -/
noncomputable def realParams : Params ℝ where
  voxel_size := 0.2
  opening_angle := Real.pi / 4
  minimum_height := -1.3
  minimum_range := 3.0
  maximum_range := 20.0

/-! ## The loops of `show_detection` -/

theorem index_append_length {β : Type} (pre suf : List β) (b : β) :
    index (pre ++ b :: suf) pre.length = Except.ok b := by
  have h : (pre ++ b :: suf)[pre.length]? = some b := by
    rw [List.getElem?_append_right (Nat.le_refl _)]
    simp
  simp only [index, h]

theorem index_of_le {β : Type} (v : List β) (i : Nat) (h : v.length ≤ i) :
    index v i = Except.error (Fault.outOfBounds i v.length) := by
  simp [index, List.getElem?_eq_none h]

theorem forLoop_empty {σ : Type} (lo hi : Nat) (h : hi ≤ lo) (body : σ → Nat → Except Fault σ)
    (init : σ) : forLoop lo hi body init = Except.ok init := by
  simp [forLoop, Nat.sub_eq_zero_of_le h]
  rfl

theorem pushLoop_eq {α : Type} (suf : List (Cluster α)) :
    ∀ (pre : List (Cluster α)) (acc : List (Marker α)),
      (List.range' pre.length suf.length).foldlM (pushMarker (pre ++ suf)) acc
        = Except.ok (acc ++ markersFrom pre.length suf) := by
  induction suf with
  | nil => intro pre acc; simp [markersFrom]; rfl
  | cons c suf ih =>
    intro pre acc
    have h := ih (pre ++ [c]) (acc ++ [newMarker pre.length c])
    simp only [List.length_append, List.length_singleton, List.append_assoc,
      List.singleton_append] at h
    simp only [List.length_cons, List.range'_succ, List.foldlM_cons, pushMarker,
      index_append_length]
    simpa [markersFrom] using h


theorem markersFrom_length {α : Type} (cs : List (Cluster α)) :
    ∀ k, (markersFrom k cs).length = cs.length := by
  induction cs with
  | nil => intro k; rfl
  | cons c cs ih => intro k; simp [markersFrom, ih]

theorem markersFrom_getElem? {α : Type} (cs : List (Cluster α)) :
    ∀ (k i : Nat) (c : Cluster α), cs[i]? = some c →
      (markersFrom k cs)[i]? = some (newMarker (k + i) c) := by
  induction cs with
  | nil => intro k i c h; simp at h
  | cons d cs ih =>
    intro k i c h
    cases i with
    | zero =>
      simp only [List.getElem?_cons_zero, Option.some.injEq] at h
      simp [markersFrom, h]
    | succ i =>
      simp only [List.getElem?_cons_succ] at h
      have h2 := ih (k + 1) i c h
      simp only [markersFrom, List.getElem?_cons_succ, h2]
      congr 2
      omega

theorem markersFrom_action {α : Type} (cs : List (Cluster α)) :
    ∀ (k : Nat) (m : Marker α), m ∈ markersFrom k cs → m.action = MarkerAction.ADD := by
  induction cs with
  | nil => intro k m h; simp [markersFrom] at h
  | cons c cs ih =>
    intro k m h
    simp only [markersFrom, List.mem_cons] at h
    rcases h with h | h
    · rw [h]; rfl
    · exact ih _ m h

theorem pushLoop_all {α : Type} (cs : List (Cluster α)) :
    forLoop 0 cs.length (pushMarker cs) [] = Except.ok (markersFrom 0 cs) := by
  have h := pushLoop_eq cs [] []
  simpa [forLoop] using h

theorem deleteLoop_fault {α : Type} (ms : List (Marker α)) (hi : Nat) (h : ms.length < hi) :
    forLoop ms.length hi markDeleted ms
      = Except.error (Fault.outOfBounds ms.length ms.length) := by
  obtain ⟨d, hd⟩ : ∃ d, hi - ms.length = d + 1 := ⟨hi - ms.length - 1, by omega⟩
  simp only [forLoop, hd, List.range'_succ, List.foldlM_cons, markDeleted,
    index_of_le ms ms.length (Nat.le_refl _)]
  rfl

theorem show_detection_ok {α : Type} (n : Int) (cs : List (Cluster α))
    (h : n ≤ (cs.length : Int)) :
    show_detection n cs = Except.ok (markersFrom 0 cs, (cs.length : Int)) := by
  have h0 : n.toNat ≤ cs.length := by omega
  simp only [show_detection, pushLoop_all, forLoop_empty cs.length n.toNat h0]
  split <;> rfl

theorem show_detection_result {α : Type} (n : Int) (cs : List (Cluster α))
    (r : List (Marker α) × Int) (h : show_detection n cs = Except.ok r) :
    r = (markersFrom 0 cs, (cs.length : Int)) := by
  by_cases h0 : n ≤ (cs.length : Int)
  · rw [show_detection_ok n cs h0] at h
    exact (Except.ok.inj h).symm
  · have h1 : (markersFrom 0 cs).length < n.toNat := by rw [markersFrom_length]; omega
    have h2 := deleteLoop_fault (markersFrom 0 cs) n.toNat h1
    rw [markersFrom_length] at h2
    simp only [show_detection, pushLoop_all, bind, Except.bind] at h
    split at h
    · simp only [h2] at h
      cases h
    · exact (Except.ok.inj h).symm

theorem compared_step {α : Type} (frames : List (List (Cluster α))) :
    ∀ (s : Int) (k : Nat), k + 1 < (compared s frames).length →
      ∃ cs ms v, frames[k]? = some cs ∧ (compared s frames)[k]? = some v ∧
        show_detection v cs = Except.ok (ms, (cs.length : Int)) ∧
        (compared s frames)[k + 1]? = some (cs.length : Int) := by
  induction frames with
  | nil => intro s k h; simp [compared] at h
  | cons cs rest ih =>
    intro s k h
    cases hsd : show_detection s cs with
    | error e => simp [compared, hsd] at h
    | ok r =>
      have hr := show_detection_result s cs r hsd
      have hc : compared s (cs :: rest) = s :: compared (cs.length : Int) rest := by
        simp [compared, hsd, hr]
      rw [hc] at h ⊢
      cases k with
      | zero =>
        refine ⟨cs, r.1, s, by simp, by simp, ?_, ?_⟩
        · rw [hsd, hr]
        · cases rest with
          | nil => simp [compared] at h
          | cons d rest => simp [compared]
      | succ k =>
        simp only [List.length_cons, Nat.add_lt_add_iff_right] at h
        obtain ⟨cs2, ms, v, h1, h2, h3, h4⟩ := ih (cs.length : Int) k h
        exact ⟨cs2, ms, v, by simpa using h1, by simpa using h2, h3, by simpa using h4⟩

theorem compared_nonneg {α : Type} (frames : List (List (Cluster α))) :
    ∀ s : Int, 0 ≤ s → ∀ v ∈ compared s frames, 0 ≤ v := by
  induction frames with
  | nil => intro s hs v hv; simp [compared] at hv
  | cons cs rest ih =>
    intro s hs v hv
    simp only [compared, List.mem_cons] at hv
    rcases hv with hv | hv
    · rw [hv]; exact hs
    · cases hsd : show_detection s cs with
      | error e => simp [hsd] at hv
      | ok r =>
        rw [hsd] at hv
        have hr := show_detection_result s cs r hsd
        rw [hr] at hv
        exact ih (cs.length : Int) (Int.ofNat_nonneg _) v hv

/-! ## The filter loop -/

theorem filterStep_eq {F : Type} (A : Arith F) (P : Params F) (cloud : List (PointXYZ F))
    (st : FilterState) (i : Nat) (point : PointXYZ F) (h : index cloud i = Except.ok point) :
    filterStep A P cloud st i = Except.ok
      { indices := if retained A P point then st.indices ++ [i] else st.indices,
        reads := st.reads ++ [i] } := by
  simp only [filterStep, h, bind, Except.bind, retained, pure, Except.pure]
  split_ifs <;> simp_all

theorem filterLoop_from {F : Type} (A : Arith F) (P : Params F) (suf : List (PointXYZ F)) :
    ∀ (pre : List (PointXYZ F)) (st : FilterState),
      (List.range' pre.length suf.length).foldlM (filterStep A P (pre ++ suf)) st
        = Except.ok { indices := st.indices ++ retainedFrom A P pre.length suf,
                      reads := st.reads ++ List.range' pre.length suf.length } := by
  induction suf with
  | nil => intro pre st; simp [retainedFrom]; rfl
  | cons p suf ih =>
    intro pre st
    have h := ih (pre ++ [p])
    simp only [List.length_append, List.length_singleton, List.append_assoc,
      List.singleton_append] at h
    simp only [List.length_cons, List.range'_succ, List.foldlM_cons,
      filterStep_eq A P _ st _ p (index_append_length pre suf p), bind, Except.bind, h,
      retainedFrom]
    cases retained A P p <;> simp

theorem filterLoop_eq {F : Type} (A : Arith F) (P : Params F) (cloud : List (PointXYZ F)) :
    filterLoop A P cloud = Except.ok
      { indices := retainedFrom A P 0 cloud, reads := List.range cloud.length } := by
  have h := filterLoop_from A P cloud [] { indices := [], reads := [] }
  simpa [filterLoop, forLoop, List.range_eq_range'] using h

theorem extract_retainedFrom {F : Type} (A : Arith F) (P : Params F)
    (suf : List (PointXYZ F)) :
    ∀ pre : List (PointXYZ F),
      extract (pre ++ suf) (retainedFrom A P pre.length suf)
        = Except.ok (suf.filter (retained A P)) := by
  induction suf with
  | nil => intro pre; simp [retainedFrom, extract]
  | cons p suf ih =>
    intro pre
    have h := ih (pre ++ [p])
    simp only [List.length_append, List.length_singleton, List.append_assoc,
      List.singleton_append] at h
    cases hp : retained A P p with
    | false => simpa [retainedFrom, hp] using h
    | true =>
      simp only [retainedFrom, hp, if_true, extract, index_append_length, bind, Except.bind, h,
        List.filter_cons]
      rfl

theorem callback_pcl_eq {F : Type} (A : Arith F) (P : Params F)
    (voxelGrid : F → List (PointXYZ F) → List (PointXYZ F)) (cloud : List (PointXYZ F)) :
    callback_pcl A P voxelGrid cloud = Except.ok (cloud.filter (retained A P)) := by
  have h := extract_retainedFrom A P cloud []
  simp only [List.nil_append, List.length_nil] at h
  simp only [callback_pcl, filter_pointcloud, convert_to_voxelgrid, if_true, filterLoop_eq,
    bind, Except.bind, h]
  rfl

theorem mem_retainedFrom {F : Type} (A : Arith F) (P : Params F) (ps : List (PointXYZ F)) :
    ∀ k i : Nat, i ∈ retainedFrom A P k ps ↔
      ∃ p, k ≤ i ∧ ps[i - k]? = some p ∧ retained A P p = true := by
  induction ps with
  | nil => intro k i; simp [retainedFrom]
  | cons q ps ih =>
    intro k i
    have hstep : i ∈ retainedFrom A P (k + 1) ps ↔
        ∃ p, k + 1 ≤ i ∧ (q :: ps)[i - k]? = some p ∧ retained A P p = true := by
      rw [ih (k + 1) i]
      constructor
      · rintro ⟨p, h1, h2, h3⟩
        refine ⟨p, h1, ?_, h3⟩
        have : i - k = (i - (k + 1)) + 1 := by omega
        rw [this, List.getElem?_cons_succ]
        exact h2
      · rintro ⟨p, h1, h2, h3⟩
        refine ⟨p, h1, ?_, h3⟩
        have : i - k = (i - (k + 1)) + 1 := by omega
        rw [this, List.getElem?_cons_succ] at h2
        exact h2
    by_cases hik : i = k
    · subst hik
      have hnot : i ∉ retainedFrom A P (i + 1) ps := by
        rw [ih (i + 1) i]
        rintro ⟨p, h1, _⟩
        omega
      cases hq : retained A P q <;> simp [retainedFrom, hq, hnot]
    · have hcons : (i ∈ retainedFrom A P k (q :: ps)) ↔ i ∈ retainedFrom A P (k + 1) ps := by
        cases hq : retained A P q <;> simp [retainedFrom, hq, hik]
      rw [hcons, hstep]
      constructor
      · rintro ⟨p, h1, h2, h3⟩
        exact ⟨p, by omega, h2, h3⟩
      · rintro ⟨p, h1, h2, h3⟩
        exact ⟨p, by omega, h2, h3⟩

theorem retainedFrom_lower {F : Type} (A : Arith F) (P : Params F) (ps : List (PointXYZ F))
    (k i : Nat) (h : i ∈ retainedFrom A P k ps) : k ≤ i ∧ i < k + ps.length := by
  obtain ⟨p, h1, h2, _⟩ := (mem_retainedFrom A P ps k i).1 h
  have h3 : i - k < ps.length := by
    by_contra hc
    rw [List.getElem?_eq_none (by omega)] at h2
    cases h2
  omega

theorem retainedFrom_pairwise {F : Type} (A : Arith F) (P : Params F)
    (ps : List (PointXYZ F)) :
    ∀ k : Nat, (retainedFrom A P k ps).Pairwise (fun a b => a < b) := by
  induction ps with
  | nil => intro k; simp [retainedFrom]
  | cons q ps ih =>
    intro k
    cases hq : retained A P q with
    | false => simpa [retainedFrom, hq] using ih (k + 1)
    | true =>
      simp only [retainedFrom, hq, if_true, List.pairwise_cons]
      refine ⟨?_, ih (k + 1)⟩
      intro j hj
      have := (retainedFrom_lower A P ps (k + 1) j hj).1
      omega

theorem extract_eq_map {F : Type} (cloud : List (PointXYZ F)) :
    ∀ (idx : List Nat) (out : List (PointXYZ F)), extract cloud idx = Except.ok out →
      idx.map (fun i => cloud[i]?) = out.map some := by
  intro idx
  induction idx with
  | nil => intro out h; simp only [extract] at h; cases h; rfl
  | cons i rest ih =>
    intro out h
    simp only [extract, index, bind, Except.bind] at h
    cases hi : cloud[i]? with
    | none => simp [hi] at h
    | some p =>
      simp only [hi] at h
      cases hr : extract cloud rest with
      | error e => simp [hr] at h
      | ok ps =>
        simp only [hr] at h
        cases h
        simp [hi, ih ps hr]

theorem realRetained_iff (p : PointXYZ ℝ) :
    retained realArith realParams p = true ↔
      |Complex.arg ⟨p.x, p.y⟩| < Real.pi / 4 ∧ 3 < Real.sqrt (p.x * p.x + p.y * p.y) ∧
        Real.sqrt (p.x * p.x + p.y * p.y) < 20 ∧ -1.3 < p.z := by
  simp only [retained, realArith, realParams, Bool.and_eq_true, decide_eq_true_eq, and_assoc]
  norm_num

theorem wedge_of_angle (x y : ℝ) (hang : |Complex.arg ⟨x, y⟩| < Real.pi / 4)
    (hne : 0 < Real.sqrt (x * x + y * y)) : 0 < x ∧ |y| < x := by
  have hpi := Real.pi_pos
  have hx : 0 < x := by
    have h2 : |Complex.arg ⟨x, y⟩| < Real.pi / 2 := by linarith
    rcases Complex.abs_arg_lt_pi_div_two_iff.1 h2 with h | h
    · exact h
    · exfalso
      have hx0 : x = 0 := congrArg Complex.re h
      have hy0 : y = 0 := congrArg Complex.im h
      rw [hx0, hy0] at hne
      simp at hne
  refine ⟨hx, ?_⟩
  have htan : Real.tan (Complex.arg ⟨x, y⟩) = y / x := Complex.tan_arg ⟨x, y⟩
  obtain ⟨hlo, hhi⟩ := abs_lt.1 hang
  have h1 : Real.tan (Complex.arg ⟨x, y⟩) < 1 := by
    rw [← Real.tan_pi_div_four]
    exact Real.tan_lt_tan_of_lt_of_lt_pi_div_two (by linarith) (by linarith) hhi
  have h2 : -1 < Real.tan (Complex.arg ⟨x, y⟩) := by
    have h := Real.tan_lt_tan_of_lt_of_lt_pi_div_two (x := -(Real.pi / 4))
      (y := Complex.arg ⟨x, y⟩) (by linarith) (by linarith) hlo
    rwa [Real.tan_neg, Real.tan_pi_div_four] at h
  rw [htan] at h1 h2
  rw [div_lt_one hx] at h1
  rw [lt_div_iff₀ hx] at h2
  exact abs_lt.2 ⟨by linarith, h1⟩

theorem wedge_bounds (x y : ℝ) (hx : 0 < x) (hy : |y| < x)
    (hmin : 3 < Real.sqrt (x * x + y * y)) (hmax : Real.sqrt (x * x + y * y) < 20) :
    3 / Real.sqrt 2 < x ∧ x < 20 ∧ |y| < 20 := by
  have hyy : y * y < x * x := by
    have := abs_lt.1 hy
    nlinarith
  have hnn : 0 ≤ x * x + y * y := add_nonneg (mul_self_nonneg x) (mul_self_nonneg y)
  have hsq := Real.sq_sqrt hnn
  have hs0 := Real.sqrt_nonneg (x * x + y * y)
  have h9 : 9 < x * x + y * y := by nlinarith
  have h400 : x * x + y * y < 400 := by nlinarith
  have hx20 : x < 20 := by nlinarith [mul_self_nonneg y]
  have h2 := Real.sq_sqrt (show (0 : ℝ) ≤ 2 by norm_num)
  have h2pos : 0 < Real.sqrt 2 := Real.sqrt_pos.2 (by norm_num)
  refine ⟨?_, hx20, by linarith⟩
  rw [div_lt_iff₀ h2pos]
  by_contra hc
  push_neg at hc
  have hxs : 0 < x * Real.sqrt 2 := mul_pos hx h2pos
  have : (x * Real.sqrt 2) ^ 2 ≤ 9 := by nlinarith
  have h3 : (x * Real.sqrt 2) ^ 2 = 2 * (x * x) := by
    rw [mul_pow, h2]; ring
  nlinarith

/-! ## Markers: what `show_detection` publishes -/

/-- A call that returns publishes one `ADD` marker per cluster and nothing else: no published
array holds a `DELETE` marker. -/
theorem show_detection_publishes_only_add {α : Type} (n : Int) (cs : List (Cluster α))
    (r : List (Marker α) × Int) (h : show_detection n cs = Except.ok r) :
    r.1.length = cs.length ∧ ∀ m ∈ r.1, m.action = MarkerAction.ADD := by
  rw [show_detection_result n cs r h]
  exact ⟨markersFrom_length cs 0, fun m hm => markersFrom_action cs 0 m hm⟩

/-- When the cluster counts of the frames never decrease from one call to the next, every call
of the sequence takes place. -/
theorem compared_length_of_chain {α : Type} (frames : List (List (Cluster α))) :
    ∀ s : Int, List.Chain (fun a b => a ≤ b) s (frames.map (fun cs => (cs.length : Int))) →
      (compared s frames).length = frames.length := by
  induction frames with
  | nil => intro s _; simp [compared]
  | cons cs rest ih =>
    intro s hc
    simp only [List.map_cons, List.chain_cons] at hc
    simp [compared, show_detection_ok s cs hc.1, ih (cs.length : Int) hc.2]

/-- C2, at a failing input: the previous frame had two clusters, this frame has one.  Slot 1
should be published with action `DELETE`; the call indexes `markers[1]` in an array of one
marker and faults, so nothing is published. -/
theorem stale_slot_is_not_marked_deleted :
    show_detection (2 : Int) [clusterA]
      = Except.error (Fault.outOfBounds 1 1) := by
  rfl

/-- C3, at a failing input: a frame with one cluster is followed by a frame with none.  The
first call returns and leaves the count 1; the second call indexes `markers[0]` in an empty
array. -/
theorem empty_frame_after_one_cluster_faults :
    (∃ ms, show_detection (0 : Int) [clusterA]
        = Except.ok (ms, 1)) ∧
      show_detection (1 : Int) ([] : List (Cluster Int))
        = Except.error (Fault.outOfBounds 0 0) := by
  exact ⟨⟨_, rfl⟩, rfl⟩

/-- C5: when the previous count does not exceed the number of clusters, `show_detection`
returns, publishes exactly one marker per cluster, and marker `i` has id `i`, action `ADD`, the
centre of cluster `i` as position and the footprint of cluster `i` as scale. -/
theorem show_detection_one_marker_per_cluster {α : Type} (num_last_objects : Int)
    (clusters : List (Cluster α)) (h : num_last_objects ≤ (clusters.length : Int)) :
    ∃ markers : List (Marker α),
      show_detection num_last_objects clusters = Except.ok (markers, (clusters.length : Int)) ∧
      markers.length = clusters.length ∧
      ∀ (i : Nat) (c : Cluster α), clusters[i]? = some c →
        ∃ m : Marker α, markers[i]? = some m ∧ m.id = (i : Int) ∧
          m.action = MarkerAction.ADD ∧
          m.pose_position_x = c.x ∧ m.pose_position_y = c.y ∧
          m.scale_x = c.l_x ∧ m.scale_y = c.l_y := by
  refine ⟨markersFrom 0 clusters, show_detection_ok num_last_objects clusters h,
    markersFrom_length clusters 0, ?_⟩
  intro i c hc
  refine ⟨newMarker (0 + i) c, markersFrom_getElem? clusters 0 i c hc, ?_, rfl, rfl, rfl, rfl,
    rfl⟩
  simp [newMarker]

/-- Witness of C5: two clusters after a frame with one cluster. -/
theorem show_detection_one_marker_per_cluster_witness :
    (1 : Int) ≤ (([clusterA, clusterB] : List (Cluster Int)).length : Int) ∧
    ∃ markers : List (Marker Int),
      show_detection (1 : Int) [clusterA, clusterB] = Except.ok (markers, 2) ∧
      markers.length = 2 ∧
      ∀ (i : Nat) (c : Cluster Int),
        ([clusterA, clusterB] : List (Cluster Int))[i]? = some c →
        ∃ m : Marker Int, markers[i]? = some m ∧ m.id = (i : Int) ∧
          m.action = MarkerAction.ADD ∧
          m.pose_position_x = c.x ∧ m.pose_position_y = c.y ∧
          m.scale_x = c.l_x ∧ m.scale_y = c.l_y :=
  ⟨by decide, show_detection_one_marker_per_cluster 1 [clusterA, clusterB] (by decide)⟩

/-- What the bookkeeping does on the calls that return: such a call leaves `num_last_objects`
equal to the number of clusters it was passed, and in a sequence of calls from 0 a call that
takes place compares the count left by the call before it. -/
theorem returning_call_sets_count {α : Type}
    (num_last_objects : Int) (clusters : List (Cluster α)) (r : List (Marker α) × Int)
    (frames : List (List (Cluster α))) (k : Nat)
    (hcall : show_detection num_last_objects clusters = Except.ok r)
    (hseq : k + 1 < (compared 0 frames).length) :
    r.2 = (clusters.length : Int) ∧
    (∃ (before : List (Cluster α)) (markers : List (Marker α)) (v : Int),
      frames[k]? = some before ∧ (compared 0 frames)[k]? = some v ∧
      show_detection v before = Except.ok (markers, (before.length : Int)) ∧
      (compared 0 frames)[k + 1]? = some (before.length : Int)) ∧
    ∀ v ∈ compared 0 frames, 0 ≤ v := by
  refine ⟨?_, compared_step frames 0 k hseq, compared_nonneg frames 0 (le_refl 0)⟩
  rw [show_detection_result num_last_objects clusters r hcall]

/-- On any arithmetic the filter loop returns, and an index is in the inlier list exactly when
the point at that index satisfies the conjunction `retained`. -/
theorem filterLoop_indices_iff {F : Type} (A : Arith F) (P : Params F)
    (cloud : List (PointXYZ F)) :
    ∃ st, filterLoop A P cloud = Except.ok st ∧
      ∀ i, i ∈ st.indices ↔ ∃ p, cloud[i]? = some p ∧ retained A P p = true := by
  refine ⟨_, filterLoop_eq A P cloud, ?_⟩
  intro i
  simp [mem_retainedFrom]

/-- C1: on every arithmetic, so in the `float` arithmetic of the source, the filter loop
returns, and the index `i` is in the inlier list if and only if the point `(x, y, z)` at index
`i` passes all of `|atan2(y, x)| < opening_angle`, `minimum_range < sqrt(x*x + y*y)`,
`sqrt(x*x + y*y) < maximum_range` and `minimum_height < z`, each computed and compared as the
source does: the nested tests, the angle test repeated, amount to this one conjunction.  The
comparisons are strict: when `<` is irreflexive, a point whose computed range equals
`minimum_range` or `maximum_range`, whose height equals `minimum_height`, or whose computed
angle equals `opening_angle` is not an inlier. -/
theorem filter_loop_inlier_iff {F : Type} (A : Arith F) (P : Params F)
    (cloud : List (PointXYZ F)) :
    ∃ st, filterLoop A P cloud = Except.ok st ∧
      (∀ i, i ∈ st.indices ↔
        ∃ p, cloud[i]? = some p ∧
          A.lt (A.abs (A.atan2 p.y p.x)) P.opening_angle = true ∧
          A.lt P.minimum_range (A.sqrt (A.add (A.mul p.x p.x) (A.mul p.y p.y))) = true ∧
          A.lt (A.sqrt (A.add (A.mul p.x p.x) (A.mul p.y p.y))) P.maximum_range = true ∧
          A.lt P.minimum_height p.z = true) ∧
      ((∀ a, A.lt a a = false) →
        ∀ i p, cloud[i]? = some p →
          (A.sqrt (A.add (A.mul p.x p.x) (A.mul p.y p.y)) = P.minimum_range ∨
            A.sqrt (A.add (A.mul p.x p.x) (A.mul p.y p.y)) = P.maximum_range ∨
            p.z = P.minimum_height ∨
            A.abs (A.atan2 p.y p.x) = P.opening_angle) →
          i ∉ st.indices) := by
  have hiff : ∀ i, i ∈ retainedFrom A P 0 cloud ↔
      ∃ p, cloud[i]? = some p ∧
        A.lt (A.abs (A.atan2 p.y p.x)) P.opening_angle = true ∧
        A.lt P.minimum_range (A.sqrt (A.add (A.mul p.x p.x) (A.mul p.y p.y))) = true ∧
        A.lt (A.sqrt (A.add (A.mul p.x p.x) (A.mul p.y p.y))) P.maximum_range = true ∧
        A.lt P.minimum_height p.z = true := by
    intro i
    simp only [mem_retainedFrom, Nat.zero_le, Nat.sub_zero, true_and, retained,
      Bool.and_eq_true, and_assoc]
  refine ⟨_, filterLoop_eq A P cloud, hiff, ?_⟩
  intro hirr i p hp hb hi
  obtain ⟨q, hq, h1, h2, h3, h4⟩ := (hiff i).1 hi
  rw [hp] at hq
  cases hq
  rcases hb with hb | hb | hb | hb
  · rw [hb, hirr] at h2
    cases h2
  · rw [hb, hirr] at h3
    cases h3
  · rw [hb, hirr] at h4
    cases h4
  · rw [hb, hirr] at h1
    cases h1

/-- C4: on any arithmetic, with the voxel grid disabled as in the source, the filter returns,
and applied to its own output it returns that output unchanged. -/
theorem filter_idempotent {F : Type} (A : Arith F) (P : Params F)
    (voxelGrid : F → List (PointXYZ F) → List (PointXYZ F)) (cloud : List (PointXYZ F)) :
    ∃ out, callback_pcl A P voxelGrid cloud = Except.ok out ∧
      callback_pcl A P voxelGrid out = Except.ok out := by
  refine ⟨_, callback_pcl_eq A P voxelGrid cloud, ?_⟩
  rw [callback_pcl_eq, List.filter_filter]
  simp

/-- C6: over exact real arithmetic, when every point of the cloud has horizontal range
`sqrt(x*x + y*y)` at most 3, the loop returns an empty inlier list and the cloud handed on is
empty. -/
theorem filter_all_behind_minimum_range
    (voxelGrid : ℝ → List (PointXYZ ℝ) → List (PointXYZ ℝ)) (cloud : List (PointXYZ ℝ))
    (h : ∀ p ∈ cloud, Real.sqrt (p.x * p.x + p.y * p.y) ≤ 3) :
    (∃ st, filterLoop realArith realParams cloud = Except.ok st ∧ st.indices = []) ∧
      callback_pcl realArith realParams voxelGrid cloud = Except.ok [] := by
  have hnone : ∀ p ∈ cloud, ¬ (retained realArith realParams p = true) := by
    intro p hp hr
    have h3 := ((realRetained_iff p).1 hr).2.1
    exact absurd (h p hp) (not_le.2 h3)
  constructor
  · refine ⟨_, filterLoop_eq realArith realParams cloud, ?_⟩
    apply List.eq_nil_iff_forall_not_mem.2
    intro i hi
    obtain ⟨p, _, hp, hr⟩ := (mem_retainedFrom realArith realParams cloud 0 i).1 hi
    exact hnone p (List.getElem?_mem hp) hr
  · rw [callback_pcl_eq]
    congr 1
    rw [List.filter_eq_nil_iff]
    exact hnone

/-- Witness of C6: a cloud of two points at horizontal range 1 and 0. -/
theorem filter_all_behind_minimum_range_witness :
    (∀ p ∈ ([{ x := 1, y := 0, z := 0 }, { x := 0, y := 0, z := 2 }] : List (PointXYZ ℝ)),
        Real.sqrt (p.x * p.x + p.y * p.y) ≤ 3) ∧
      callback_pcl realArith realParams (fun _ c => c)
        [{ x := 1, y := 0, z := 0 }, { x := 0, y := 0, z := 2 }] = Except.ok [] := by
  have hw : ∀ p ∈ ([{ x := 1, y := 0, z := 0 }, { x := 0, y := 0, z := 2 }] :
      List (PointXYZ ℝ)), Real.sqrt (p.x * p.x + p.y * p.y) ≤ 3 := by
    intro p hp
    simp only [List.mem_cons, List.mem_singleton, List.not_mem_nil, or_false] at hp
    rcases hp with h | h <;> subst h <;> norm_num
  exact ⟨hw, (filter_all_behind_minimum_range (fun _ c => c) _ hw).2⟩

/-- C7: on any arithmetic, for the empty cloud the loop returns with no point read and no
inlier, and the filtered cloud is empty. -/
theorem filter_empty_cloud {F : Type} (A : Arith F) (P : Params F)
    (voxelGrid : F → List (PointXYZ F) → List (PointXYZ F)) :
    filterLoop A P [] = Except.ok { indices := [], reads := [] } ∧
      callback_pcl A P voxelGrid [] = Except.ok [] :=
  ⟨rfl, rfl⟩

/-- C9: over exact real arithmetic with the constants of the source, every point `(x, y, z)` of
the filtered cloud has `x > 0`, `|y| < x`, `3 / sqrt 2 < x < 20` and `|y| < 20`. -/
theorem retained_point_in_wedge
    (voxelGrid : ℝ → List (PointXYZ ℝ) → List (PointXYZ ℝ)) (cloud out : List (PointXYZ ℝ))
    (p : PointXYZ ℝ) (h : callback_pcl realArith realParams voxelGrid cloud = Except.ok out)
    (hp : p ∈ out) :
    0 < p.x ∧ |p.y| < p.x ∧ 3 / Real.sqrt 2 < p.x ∧ p.x < 20 ∧ |p.y| < 20 := by
  rw [callback_pcl_eq] at h
  have hout := Except.ok.inj h
  rw [← hout, List.mem_filter] at hp
  obtain ⟨hang, hmin, hmax, _⟩ := (realRetained_iff p).1 hp.2
  obtain ⟨hx, hy⟩ := wedge_of_angle p.x p.y hang (by linarith)
  obtain ⟨h1, h2, h3⟩ := wedge_bounds p.x p.y hx hy hmin hmax
  exact ⟨hx, hy, h1, h2, h3⟩

/-- The point `(5, 0, 0)` straight ahead is retained. -/
theorem point_ahead_retained :
    retained realArith realParams { x := 5, y := 0, z := 0 } = true := by
  rw [realRetained_iff]
  have h5 : Real.sqrt ((5 : ℝ) * 5 + 0 * 0) = 5 := by
    rw [show (5 : ℝ) * 5 + 0 * 0 = 5 ^ 2 by norm_num]
    exact Real.sqrt_sq (by norm_num)
  have harg : Complex.arg ⟨5, 0⟩ = 0 := by
    have : (⟨5, 0⟩ : ℂ) = ((5 : ℝ) : ℂ) := by
      apply Complex.ext <;> simp
    rw [this]
    exact Complex.arg_ofReal_of_nonneg (by norm_num)
  simp only [h5, harg, abs_zero]
  refine ⟨by positivity, by norm_num, by norm_num, by norm_num⟩

/-- Witness of C9: the cloud `[(5, 0, 0), (1, 0, 0)]` is filtered to `[(5, 0, 0)]`. -/
theorem retained_point_in_wedge_witness :
    callback_pcl realArith realParams (fun _ c => c)
        [{ x := 5, y := 0, z := 0 }, { x := 1, y := 0, z := 0 }]
        = Except.ok [{ x := 5, y := 0, z := 0 }] ∧
      (0 : ℝ) < 5 ∧ |(0 : ℝ)| < 5 ∧ 3 / Real.sqrt 2 < 5 ∧ (5 : ℝ) < 20 ∧ |(0 : ℝ)| < 20 := by
  have hrun : callback_pcl realArith realParams (fun _ c => c)
      [{ x := 5, y := 0, z := 0 }, { x := 1, y := 0, z := 0 }]
      = Except.ok [{ x := 5, y := 0, z := 0 }] := by
    have h1 : retained realArith realParams { x := 1, y := 0, z := 0 } = false := by
      rw [Bool.eq_false_iff, Ne, realRetained_iff]
      intro hc
      have := hc.2.1
      norm_num at this
    rw [callback_pcl_eq]
    simp [List.filter_cons, point_ahead_retained, h1]
  exact ⟨hrun, retained_point_in_wedge (fun _ c => c) _ _ { x := 5, y := 0, z := 0 } hrun
    (by simp)⟩

/-- C10: on any arithmetic the loop and the extraction return; the inlier indices are strictly
increasing and below the size of the cloud; the filtered cloud holds the points at these
indices, in this order, so it is a subsequence of the input and not longer than it. -/
theorem filter_indices_increasing {F : Type} (A : Arith F) (P : Params F)
    (voxelGrid : F → List (PointXYZ F) → List (PointXYZ F)) (cloud : List (PointXYZ F)) :
    ∃ st out, filterLoop A P cloud = Except.ok st ∧
      callback_pcl A P voxelGrid cloud = Except.ok out ∧
      st.indices.Pairwise (fun a b => a < b) ∧
      (∀ i ∈ st.indices, i < cloud.length) ∧
      st.indices.map (fun i => cloud[i]?) = out.map some ∧
      out.Sublist cloud ∧ out.length ≤ cloud.length := by
  refine ⟨_, _, filterLoop_eq A P cloud, callback_pcl_eq A P voxelGrid cloud,
    retainedFrom_pairwise A P cloud 0, ?_, ?_, List.filter_sublist cloud,
    List.length_filter_le _ cloud⟩
  · intro i hi
    have := (retainedFrom_lower A P cloud 0 i hi).2
    omega
  · have h := extract_retainedFrom A P cloud []
    simp only [List.nil_append, List.length_nil] at h
    exact extract_eq_map cloud _ _ h

end KittiPcl
